import Mathlib

/-!
Verification of the array/list traversal module of `init.data.array.basic`
(compiler-generated source `src/src/stage0/init/data/array/basic.cpp`).

The module's combinators are embedded shallowly: the persistent array value
is its list of elements in index order, and each generated loop
(`iterate_aux`, `rev_iterate_aux`, the fold / map / map2 / foreach
specializations, `to_list`, `list.to_array`) is translated into a Lean
function with the exact bound checks, read/write positions and callable
argument orders of the generated code.
-/

set_option maxHeartbeats 1000000

universe u v

/-- Modelled from the spec: the array primitive layer (`runtime/object.h`,
out of scope of the shown source) provides a persistent, 0-indexed,
contiguous sequence.  A value is modelled by its list of elements in index
order; copy-on-write storage reuse is unobservable at value level. -/
structure array (α : Type u) : Type u where
  data : List α

namespace array

variable {α : Type u} {β : Type v}

/-- Modelled from the spec: `length(a) -> size_t`, the current element
count (`lean::array_get_size` / `lean::array_sz`). -/
def size (a : array α) : Nat := a.data.length

/-- Modelled from the spec: `read(a, i) -> T` with precondition
`i < length(a)`, undefined otherwise (`lean::array_read`); the
out-of-range case is modelled by the default element. -/
def read [Inhabited α] (a : array α) (i : Nat) : α := a.data.getD i default

/-- Modelled from the spec: `write(a, i, v) -> Array` with precondition
`i < length(a)` (`lean::array_write`); the out-of-range case is modelled as
a no-op, matching `safeWrite`'s contract there. -/
def write (a : array α) (i : Nat) (v : α) : array α := ⟨a.data.set i v⟩

/-- Modelled from the spec: `push(a, v) -> Array` appends
(`lean::array_push`). -/
def push (a : array α) (v : α) : array α := ⟨a.data ++ [v]⟩

/-- Modelled from the spec: `makeEmpty() -> Array`
(`lean::mk_nil_array`, `l_array_nil`). -/
def nil : array α := ⟨[]⟩

/-- Embeds `l___private_init_data_array_basic_1__iterate__aux___main___rarg`
(basic.cpp lines 340-368): forward traversal that re-reads the array size
and tests `i < size` before every step, then applies the callable as
`f i a[i] acc`. -/
def iterate_aux [Inhabited α] (a : array α) (f : Nat → α → β → β) (i : Nat) (b : β) : β :=
  if h : i < a.size then iterate_aux a f (i + 1) (f i (a.read i) b) else b
termination_by a.size - i
decreasing_by omega

/-- Embeds `l_array_iterate___rarg` (lines 413-421): start the forward
traversal at index 0. -/
def iterate [Inhabited α] (a : array α) (b : β) (f : Nat → α → β → β) : β :=
  iterate_aux a f 0 b

/-- Embeds
`l___private_init_data_array_basic_1__iterate__aux___main___at_array_foldl___spec__1___rarg`
(lines 440-469): the fold specialization of the forward loop; the callable
is applied to the element first and the accumulator second
(`apply_2(f, a[i], acc)`). -/
def foldl_aux [Inhabited α] (f : α → β → β) (a : array α) (i : Nat) (b : β) : β :=
  if h : i < a.size then foldl_aux f a (i + 1) (f (a.read i) b) else b
termination_by a.size - i
decreasing_by omega

/-- Embeds `l_array_foldl___rarg` (lines 478-488): run the fold loop from
index 0. -/
def foldl [Inhabited α] (a : array α) (b : β) (f : α → β → β) : β :=
  foldl_aux f a 0 b

/-- Embeds `l___private_init_data_array_basic_2__rev__iterate__aux___main___rarg`
(lines 526-553): reverse traversal driven by a plain counter captured at
entry; while the counter is nonzero it is decremented to `j` and the
callable applied as `f j a[j] acc`. -/
def rev_iterate_aux [Inhabited α] (a : array α) (f : Nat → α → β → β) : Nat → β → β
  | 0, b => b
  | i + 1, b => rev_iterate_aux a f i (f i (a.read i) b)

/-- Embeds `l_array_rev__iterate___rarg` (lines 619-627): capture the size
once and run the reverse loop. -/
def rev_iterate [Inhabited α] (a : array α) (b : β) (f : Nat → α → β → β) : β :=
  rev_iterate_aux a f a.size b

/-- Embeds
`l___private_init_data_array_basic_2__rev__iterate__aux___main___at_array_rev__foldl___spec__1___rarg`
(lines 655-682): the fold specialization of the reverse loop; callable
applied as `f a[j] acc`. -/
def rev_foldl_aux [Inhabited α] (f : α → β → β) (a : array α) : Nat → β → β
  | 0, b => b
  | i + 1, b => rev_foldl_aux f a i (f (a.read i) b)

/-- Embeds `l_array_rev__foldl___rarg` (lines 691-699). -/
def rev_foldl [Inhabited α] (a : array α) (b : β) (f : α → β → β) : β :=
  rev_foldl_aux f a a.size b

/-- Embeds
`l___private_init_data_array_basic_2__rev__iterate__aux___main___at_array_to__list___spec__1___rarg`
(lines 748-775): descending counter, consing `a[j]` onto the accumulator
list at every step. -/
def to_list_aux [Inhabited α] (a : array α) : Nat → List α → List α
  | 0, acc => acc
  | i + 1, acc => to_list_aux a i (a.read i :: acc)

/-- Embeds `l_array_to__list___rarg` (lines 784-793): start from the
captured size and the empty list. -/
def to_list [Inhabited α] (a : array α) : List α :=
  to_list_aux a a.size []

/-- Embeds
`l___private_init_data_array_basic_1__iterate__aux___main___at_array_foreach___spec__1___rarg`
(lines 995-1026): forward loop bounded by the traversed array's size,
writing `f i a[i]` into the output buffer at index `i`. -/
def foreach_aux [Inhabited α] (f : Nat → α → α) (a : array α) (i : Nat) (out : array α) : array α :=
  if h : i < a.size then foreach_aux f a (i + 1) (out.write i (f i (a.read i))) else out
termination_by a.size - i
decreasing_by omega

/-- Embeds `l_array_foreach___rarg` (lines 1035-1045): the output buffer
starts as the input array itself. -/
def foreach [Inhabited α] (a : array α) (f : Nat → α → α) : array α :=
  foreach_aux f a 0 a

/-- Embeds
`l___private_init_data_array_basic_1__iterate__aux___main___at_array_map___spec__1___rarg`
(lines 1082-1112): like the foreach loop but the callable receives only the
element. -/
def map_aux [Inhabited α] (f : α → α) (a : array α) (i : Nat) (out : array α) : array α :=
  if h : i < a.size then map_aux f a (i + 1) (out.write i (f (a.read i))) else out
termination_by a.size - i
decreasing_by omega

/-- Embeds `l_array_map___rarg` (lines 1121-1132). -/
def map [Inhabited α] (f : α → α) (a : array α) : array α :=
  map_aux f a 0 a

/-- Embeds
`l___private_init_data_array_basic_1__iterate__aux___main___at_array_map_u_2082___spec__1___rarg`
(lines 1168-1199), the branch taken when `b` is strictly shorter: loop
bounded by `b`'s size, element written at `i` is `f a[i] b[i]`
(`apply_2(f, x_16, x_15)` with `x_16 = a[i]`, `x_15 = b[i]`). -/
def map₂_aux₁ [Inhabited α] (f : α → α → α) (a b : array α) (i : Nat) (out : array α) :
    array α :=
  if h : i < b.size then map₂_aux₁ f a b (i + 1) (out.write i (f (a.read i) (b.read i))) else out
termination_by b.size - i
decreasing_by omega

/-- Embeds
`l___private_init_data_array_basic_1__iterate__aux___main___at_array_map_u_2082___spec__2___rarg`
(lines 1208-1239), the branch taken when `size a ≤ size b`: loop bounded by
`a`'s size, element written at `i` is `f b[i] a[i]`
(`apply_2(f, x_16, x_15)` with `x_16 = b[i]`, `x_15 = a[i]`). -/
def map₂_aux₂ [Inhabited α] (f : α → α → α) (a b : array α) (i : Nat) (out : array α) :
    array α :=
  if h : i < a.size then map₂_aux₂ f a b (i + 1) (out.write i (f (b.read i) (a.read i))) else out
termination_by a.size - i
decreasing_by omega

/-- Embeds `l_array_map_u_2082___rarg` (lines 1248-1280): compare the two
sizes with `≤`; on `size a ≤ size b` run the second specialization with
`a` as the output buffer, otherwise the first with `b` as the output
buffer. -/
def map₂ [Inhabited α] (f : α → α → α) (a b : array α) : array α :=
  if a.size ≤ b.size then map₂_aux₂ f a b 0 a else map₂_aux₁ f a b 0 b

/-- Modelled from the spec: the forward traversal variant of §9 that
captures the bound once at entry instead of re-reading the length before
every step (the comparison target of the refinement claim; the generated
code itself re-reads, see `array.iterate_aux`). -/
def iterate_fixed_aux [Inhabited α] (a : array α) (f : Nat → α → β → β) (n i : Nat) (b : β) :
    β :=
  if h : i < n then iterate_fixed_aux a f n (i + 1) (f i (a.read i) b) else b
termination_by n - i
decreasing_by omega

/-- Modelled from the spec: the capture-once forward traversal started at
index 0 with the bound fixed to the length at entry. -/
def iterate_fixed [Inhabited α] (a : array α) (b : β) (f : Nat → α → β → β) : β :=
  iterate_fixed_aux a f a.size 0 b

end array

namespace list

variable {α : Type u}

/-- Embeds `l_list_to__array__aux___main___rarg` (basic.cpp lines
1336-1357): push each list element onto the accumulating array in list
order. -/
def to_array_aux : List α → array α → array α
  | [], a => a
  | x :: xs, a => to_array_aux xs (a.push x)

/-- Embeds `l_list_to__array___rarg` (lines 1400-1408): start from the
empty array. -/
def to_array (l : List α) : array α := to_array_aux l array.nil

end list

namespace array

variable {α : Type u} {β : Type v}

theorem data_ext {a b : array α} (h : a.data = b.data) : a = b := by
  obtain ⟨d⟩ := a
  obtain ⟨e⟩ := b
  cases h
  rfl

theorem read_eq [Inhabited α] (a : array α) (i : Nat) (h : i < a.data.length) :
    a.read i = a.data[i] := by
  simp [array.read, List.getD_eq_getElem?_getD, List.getElem?_eq_getElem h]

theorem drop_eq_read_cons [Inhabited α] (a : array α) (i : Nat) (h : i < a.data.length) :
    a.data.drop i = a.read i :: a.data.drop (i + 1) := by
  rw [List.drop_eq_getElem_cons h, read_eq a i h]

theorem take_set_succ (l : List α) (i : Nat) (v : α) (h : i < l.length) :
    (l.set i v).take (i + 1) = l.take i ++ [v] := by
  induction l generalizing i with
  | nil => simp at h
  | cons x xs ih =>
    cases i with
    | zero => simp
    | succ j =>
      have hj : j < xs.length := by simpa using h
      simp [ih j hj]

theorem foldl_aux_eq [Inhabited α] (f : α → β → β) (a : array α) (i : Nat) (b : β) :
    array.foldl_aux f a i b = (a.data.drop i).foldl (fun acc x => f x acc) b := by
  rw [array.foldl_aux]
  by_cases h : i < a.size
  · have h' : i < a.data.length := h
    rw [dif_pos h, foldl_aux_eq f a (i + 1), drop_eq_read_cons a i h']
    rfl
  · have h' : a.data.length ≤ i := Nat.le_of_not_lt h
    rw [dif_neg h, List.drop_eq_nil_of_le h']
    rfl
termination_by a.size - i
decreasing_by omega

theorem foldl_eq [Inhabited α] (a : array α) (z : β) (f : α → β → β) :
    array.foldl a z f = List.foldl (fun acc x => f x acc) z a.data := by
  rw [array.foldl, foldl_aux_eq f a 0 z, List.drop_zero]

theorem rev_foldl_aux_eq [Inhabited α] (f : α → β → β) (a : array α) (i : Nat) (b : β)
    (h : i ≤ a.data.length) :
    array.rev_foldl_aux f a i b = (a.data.take i).foldr f b := by
  induction i generalizing b with
  | zero => rfl
  | succ j ih =>
    have hj : j < a.data.length := by omega
    rw [array.rev_foldl_aux, ih _ (by omega), read_eq a j hj, List.take_succ,
      List.getElem?_eq_getElem hj]
    simp only [Option.toList_some, List.foldr_append, List.foldr_cons, List.foldr_nil]

theorem to_list_aux_eq [Inhabited α] (a : array α) (i : Nat) (acc : List α)
    (h : i ≤ a.data.length) :
    array.to_list_aux a i acc = a.data.take i ++ acc := by
  induction i generalizing acc with
  | zero => rfl
  | succ j ih =>
    have hj : j < a.data.length := by omega
    rw [array.to_list_aux, ih _ (by omega), read_eq a j hj, List.take_succ,
      List.getElem?_eq_getElem hj]
    simp only [Option.toList_some, List.append_assoc, List.singleton_append]

theorem to_list_data [Inhabited α] (a : array α) : array.to_list a = a.data := by
  rw [array.to_list, to_list_aux_eq a a.size [] (Nat.le_refl _)]
  simp [array.size, List.take_length]

theorem iterate_aux_eq_fixed [Inhabited α] (a : array α) (f : Nat → α → β → β) (i : Nat)
    (b : β) :
    array.iterate_aux a f i b = array.iterate_fixed_aux a f a.size i b := by
  rw [array.iterate_aux, array.iterate_fixed_aux]
  by_cases h : i < a.size
  · rw [dif_pos h, dif_pos h, iterate_aux_eq_fixed a f (i + 1)]
  · rw [dif_neg h, dif_neg h]
termination_by a.size - i
decreasing_by omega

theorem map_aux_data [Inhabited α] (f : α → α) (a : array α) (i : Nat) (out : array α)
    (h : out.data.length = a.data.length) :
    (array.map_aux f a i out).data = out.data.take i ++ (a.data.drop i).map f := by
  rw [array.map_aux]
  by_cases hi : i < a.size
  · have hi' : i < a.data.length := hi
    rw [dif_pos hi,
      map_aux_data f a (i + 1) (out.write i (f (a.read i))) (by simp [array.write, h]),
      drop_eq_read_cons a i hi']
    simp only [array.write, List.map_cons]
    rw [take_set_succ out.data i (f (a.read i)) (by omega)]
    simp
  · have hi' : a.data.length ≤ i := Nat.le_of_not_lt hi
    rw [dif_neg hi, List.drop_eq_nil_of_le hi', List.take_of_length_le (by omega)]
    simp
termination_by a.size - i
decreasing_by omega

theorem map_data [Inhabited α] (f : α → α) (a : array α) :
    (array.map f a).data = a.data.map f := by
  rw [array.map, map_aux_data f a 0 a rfl]
  simp

theorem foreach_aux_size [Inhabited α] (f : Nat → α → α) (a : array α) (i : Nat)
    (out : array α) :
    (array.foreach_aux f a i out).size = out.size := by
  rw [array.foreach_aux]
  by_cases hi : i < a.size
  · rw [dif_pos hi, foreach_aux_size f a (i + 1)]
    simp [array.size, array.write]
  · rw [dif_neg hi]
termination_by a.size - i
decreasing_by omega

theorem map₂_aux₂_data [Inhabited α] (f : α → α → α) (a b : array α) (i : Nat) (out : array α)
    (hab : a.data.length ≤ b.data.length) (hout : out.data.length = a.data.length) :
    (array.map₂_aux₂ f a b i out).data
      = out.data.take i ++ List.zipWith (fun x y => f y x) (a.data.drop i) (b.data.drop i) := by
  rw [array.map₂_aux₂]
  by_cases hi : i < a.size
  · have hia : i < a.data.length := hi
    have hib : i < b.data.length := by omega
    rw [dif_pos hi,
      map₂_aux₂_data f a b (i + 1) (out.write i (f (b.read i) (a.read i))) hab
        (by simp [array.write, hout]),
      drop_eq_read_cons a i hia, drop_eq_read_cons b i hib, List.zipWith_cons_cons]
    simp only [array.write]
    rw [take_set_succ out.data i (f (b.read i) (a.read i)) (by omega)]
    simp
  · have hia : a.data.length ≤ i := Nat.le_of_not_lt hi
    rw [dif_neg hi, List.drop_eq_nil_of_le hia, List.take_of_length_le (by omega)]
    simp
termination_by a.size - i
decreasing_by omega

theorem map₂_aux₁_data [Inhabited α] (f : α → α → α) (a b : array α) (i : Nat) (out : array α)
    (hba : b.data.length ≤ a.data.length) (hout : out.data.length = b.data.length) :
    (array.map₂_aux₁ f a b i out).data
      = out.data.take i ++ List.zipWith f (a.data.drop i) (b.data.drop i) := by
  rw [array.map₂_aux₁]
  by_cases hi : i < b.size
  · have hib : i < b.data.length := hi
    have hia : i < a.data.length := by omega
    rw [dif_pos hi,
      map₂_aux₁_data f a b (i + 1) (out.write i (f (a.read i) (b.read i))) hba
        (by simp [array.write, hout]),
      drop_eq_read_cons a i hia, drop_eq_read_cons b i hib, List.zipWith_cons_cons]
    simp only [array.write]
    rw [take_set_succ out.data i (f (a.read i) (b.read i)) (by omega)]
    simp
  · have hib : b.data.length ≤ i := Nat.le_of_not_lt hi
    rw [dif_neg hi, List.drop_eq_nil_of_le hib, List.take_of_length_le (by omega)]
    simp
termination_by b.size - i
decreasing_by omega

theorem map₂_data_le [Inhabited α] (f : α → α → α) (a b : array α) (h : a.size ≤ b.size) :
    (array.map₂ f a b).data = List.zipWith (fun x y => f y x) a.data b.data := by
  rw [array.map₂, if_pos h, map₂_aux₂_data f a b 0 a h rfl]
  simp

theorem map₂_data_lt [Inhabited α] (f : α → α → α) (a b : array α) (h : b.size < a.size) :
    (array.map₂ f a b).data = List.zipWith f a.data b.data := by
  have ea : a.size = a.data.length := rfl
  have eb : b.size = b.data.length := rfl
  have hn : ¬ a.size ≤ b.size := by omega
  rw [array.map₂, if_neg hn, map₂_aux₁_data f a b 0 b (by omega) rfl]
  simp

theorem map₂_read_le [Inhabited α] (f : α → α → α) (a b : array α) (i : Nat)
    (h : a.data.length ≤ b.data.length) (hi : i < a.data.length) :
    (array.map₂ f a b).read i = f (b.read i) (a.read i) := by
  have hz : i < (List.zipWith (fun x y => f y x) a.data b.data).length := by
    rw [List.length_zipWith]
    omega
  rw [array.read, map₂_data_le f a b h, List.getD_eq_getElem?_getD,
    List.getElem?_eq_getElem hz, List.getElem_zipWith]
  simp [read_eq a i hi, read_eq b i (show i < b.data.length by omega)]

theorem map₂_read_lt [Inhabited α] (f : α → α → α) (a b : array α) (i : Nat)
    (h : b.data.length < a.data.length) (hi : i < b.data.length) :
    (array.map₂ f a b).read i = f (a.read i) (b.read i) := by
  have hz : i < (List.zipWith f a.data b.data).length := by
    rw [List.length_zipWith]
    omega
  rw [array.read, map₂_data_lt f a b h, List.getD_eq_getElem?_getD,
    List.getElem?_eq_getElem hz, List.getElem_zipWith]
  simp [read_eq a i (show i < a.data.length by omega), read_eq b i hi]

end array

namespace list

variable {α : Type u}

theorem to_array_aux_data (l : List α) (a : array α) :
    (list.to_array_aux l a).data = a.data ++ l := by
  induction l generalizing a with
  | nil => simp [list.to_array_aux]
  | cons x xs ih =>
    rw [list.to_array_aux, ih]
    simp [array.push]

theorem to_array_data (l : List α) : (list.to_array l).data = l := by
  rw [list.to_array, to_array_aux_data]
  rfl

end list

section claims

variable {α : Type u} {β : Type v}

/-- C1 (counterexample): the claim that `foldLeft(f, z, a)` equals the
standard left fold whose step applies the callable as `f accumulator
element` fails at `f = fun x _ => x`, `z = 0`, `a = [1]`: the generated
fold loop applies the callable as `f element accumulator`
(`apply_2(x_1, x_14, x_4)` with `x_14 = a[i]`), giving `1`, while the
claimed reference computation gives `0`. -/
theorem array_foldl_claim_counterexample :
    ¬ (array.foldl (array.mk ([1] : List Nat)) 0 (fun x _ => x)
        = List.foldl (fun x _ => x) 0 (array.mk ([1] : List Nat)).data) := by
  rw [array.foldl_eq]
  decide

/-- C1 (amended): `foldLeft(f, z, a)` (`l_array_foldl___rarg`) traverses
the elements in ascending index order but applies the callable with the
element first and the accumulator second, so the result is
`f a[n-1] (... f a[1] (f a[0] z) ...)`: the standard left fold of the
argument-flipped callable over `a`'s elements in index order. -/
theorem array_foldl_element_first [Inhabited α] (a : array α) (z : β) (f : α → β → β) :
    array.foldl a z f = List.foldl (fun acc x => f x acc) z a.data :=
  array.foldl_eq a z f

/-- C2 (counterexample): with `a = [1]`, `b = [10, 20]` and first
projection as combining function, position 0 of `zipWithTruncate(f, a, b)`
holds `f b[0] a[0] = 10`, not the claimed `f a[0] b[0] = 1`: in the
`size a ≤ size b` branch the generated code applies the callable with the
arguments swapped. -/
theorem array_map₂_claim_counterexample :
    ¬ ((array.map₂ (fun x _ => x) (array.mk ([1] : List Nat)) (array.mk [10, 20])).read 0
        = (fun x _ => x) ((array.mk ([1] : List Nat)).read 0)
            ((array.mk ([10, 20] : List Nat)).read 0)) := by
  have h : (array.map₂ (fun x _ => x) (array.mk ([1] : List Nat)) (array.mk [10, 20])).data
      = [10] := by
    rw [array.map₂_data_le (fun x _ => x) (array.mk [1]) (array.mk [10, 20]) (by decide)]
    decide
  simp only [array.read, h]
  decide

/-- C2 (amended): at every index below both lengths, `zipWithTruncate`
writes `f a[i] b[i]` when `b` is strictly shorter, but `f b[i] a[i]` when
`size a ≤ size b`: the two specialization branches of
`l_array_map_u_2082___rarg` apply the combining function with swapped
argument order. -/
theorem array_map₂_argument_order [Inhabited α] (f : α → α → α) (a b : array α) (i : Nat)
    (h₁ : i < a.size) (h₂ : i < b.size) :
    (array.map₂ f a b).read i
      = if a.size ≤ b.size then f (b.read i) (a.read i) else f (a.read i) (b.read i) := by
  have ea : a.size = a.data.length := rfl
  have eb : b.size = b.data.length := rfl
  by_cases h : a.size ≤ b.size
  · rw [if_pos h, array.map₂_read_le f a b i (by omega) (by omega)]
  · rw [if_neg h, array.map₂_read_lt f a b i (by omega) (by omega)]

/-- C2 (witness): the amended theorem evaluated at `f = sub`, `a = [1]`,
`b = [10, 20]`, index 0: since `size a ≤ size b`, the written element is
`b[0] - a[0] = 9`. -/
theorem array_map₂_argument_order_witness :
    (0 < (array.mk ([1] : List Nat)).size ∧ 0 < (array.mk ([10, 20] : List Nat)).size) ∧
      (array.map₂ (fun x y => x - y) (array.mk ([1] : List Nat)) (array.mk [10, 20])).read 0
        = 9 := by
  refine ⟨⟨by decide, by decide⟩, ?_⟩
  have h := array_map₂_argument_order (fun x y => x - y) (array.mk [1]) (array.mk [10, 20]) 0
    (by decide) (by decide)
  rw [h]
  decide

/-- C3: the length of `zipWithTruncate(f, a, b)` equals
`min (length a) (length b)` for all inputs; in particular the output is
never longer than either input. -/
theorem array_map₂_size [Inhabited α] (f : α → α → α) (a b : array α) :
    (array.map₂ f a b).size = min a.size b.size := by
  by_cases h : a.size ≤ b.size
  · rw [array.size, array.map₂_data_le f a b h, List.length_zipWith]
    rfl
  · have h' : b.size < a.size := Nat.lt_of_not_le h
    rw [array.size, array.map₂_data_lt f a b h', List.length_zipWith]
    rfl

/-- C4: `foldRight(f, z, a)` (`l_array_rev__foldl___rarg`) traverses the
indices in descending order applying the callable as `f element
accumulator`, so the result is the standard right fold
`f a[0] (f a[1] (... f a[n-1] z ...))`. -/
theorem array_rev_foldl_eq_foldr [Inhabited α] (a : array α) (z : β) (f : α → β → β) :
    array.rev_foldl a z f = List.foldr f z a.data := by
  rw [array.rev_foldl, array.rev_foldl_aux_eq f a a.size z (Nat.le_refl _)]
  simp [array.size, List.take_length]

/-- C5: converting a finite list to an array by repeated push and back to
a list yields the original list. -/
theorem array_list_round_trip [Inhabited α] (l : List α) :
    array.to_list (list.to_array l) = l := by
  rw [array.to_list_data, list.to_array_data]

/-- C6: converting an array to a list and back yields an equal array:
same length and the same element at every index. -/
theorem list_array_round_trip [Inhabited α] (a : array α) :
    list.to_array (array.to_list a) = a := by
  apply array.data_ext
  rw [list.to_array_data, array.to_list_data]

/-- C7: `toList(a)` is `[a[0], ..., a[n-1]]` in the array's original
ascending index order — the single descending-index pass of
`l___private_init_data_array_basic_2__rev__iterate__aux___main___at_array_to__list___spec__1___rarg`,
consing each visited element, reconstructs `a.data` with no separate
reversal step — and `toList` of the empty array is the empty list. -/
theorem array_to_list_ascending [Inhabited α] (a : array α) :
    array.to_list a = a.data ∧ array.to_list (array.nil : array α) = ([] : List α) :=
  ⟨array.to_list_data a, array.to_list_data (array.nil : array α)⟩

/-- C8: mapping the identity function over any array returns an equal
array (identity law), including for the empty array. -/
theorem array_map_id [Inhabited α] (a : array α) : array.map id a = a := by
  apply array.data_ext
  rw [array.map_data, List.map_id]

/-- C9: the element-wise combinators preserve length: `map(f, a)` and
`forEachIndexed(g, a)` return arrays whose length equals `length a`,
because their loops only overwrite existing slots and never push or
pop. -/
theorem array_map_foreach_size [Inhabited α] (f : α → α) (g : Nat → α → α) (a : array α) :
    (array.map f a).size = a.size ∧ (array.foreach a g).size = a.size := by
  constructor
  · rw [array.size, array.map_data, List.length_map]
    rfl
  · rw [array.foreach, array.foreach_aux_size]

/-- C10: the forward traversal engine, which re-reads the array's length
before every step, returns the same final accumulator as the spec-modelled
variant that captures the length once at entry: in the pure
value-semantics embedding the per-step re-check is unobservable. -/
theorem array_iterate_recheck_unobservable [Inhabited α] (a : array α) (b : β)
    (f : Nat → α → β → β) :
    array.iterate a b f = array.iterate_fixed a b f := by
  rw [array.iterate, array.iterate_fixed, array.iterate_aux_eq_fixed]

end claims
